import Mathlib

/-!
Verification of the Website-Scanner crawl engine and content pipeline.

The definitions below are a shallow embedding of the JavaScript sources:
* `src/api/src/scanner.js` (server variant, class `WebsiteScanner`)
* `src/dist/app.js` (browser variant of the same class)

Machine strings are Lean `String`s (lists of characters); JavaScript's
built-in `URL` object is modelled by a small executable parser for
`http(s)://host...` URLs (`parseHttp`/`serializeHttp`) covering exactly the
behaviour that `normalizeUrl`/`getBaseDomain` rely on: fragment removal,
host extraction up to the first `/` or `?`, and the serializer's insertion
of a `/` for an empty path.  Fallible code returns `Option`/`Except`.
-/

namespace WebsiteScanner



/-- JavaScript `String.prototype.includes` on lists of characters:
`listIncl needle hay` is true iff `needle` occurs contiguously in `hay`. -/
def listIncl (n : List Char) : List Char → Bool
  | [] => n.isPrefixOf []
  | c :: t => n.isPrefixOf (c :: t) || listIncl n t

/-- JavaScript `hay.includes(needle)` for strings. -/
def strIncludes (hay needle : String) : Bool :=
  listIncl needle.data hay.data

/-- JavaScript `s.endsWith(suffix)` for strings. -/
def strEndsWith (s suffix : String) : Bool :=
  suffix.data.isSuffixOf s.data

/-- JavaScript `s.toLowerCase()` (ASCII case folding suffices for the URL
and keyword comparisons the scanner performs). -/
def toLowerStr (s : String) : String :=
  String.mk (s.data.map Char.toLower)

/-! ### Model of the JavaScript `URL` built-in

`new URL(u)` is modelled for `http`/`https` URLs.  The parser returns
`(secure, host, rest)` where `rest` is the serialized path + query
(starting with `/` or `?`, or empty).  The serializer reproduces the
WHATWG behaviour the scanner depends on: an empty path serializes as `/`. -/

/-- Characters allowed in the host component: the parser stops at the first
`/` or `?`. -/
def hostChar (c : Char) : Bool := c ≠ '/' && c ≠ '?'

/-- Fragment-clearing predicate: keep characters up to the first `#`. -/
def neHash (c : Char) : Bool := c ≠ '#'

/-- Split the part after `scheme://` into host and path+query remainder;
an empty host is an invalid URL (the `URL` constructor throws). -/
def mkParsed (secure : Bool) (body : List Char) : Option (Bool × List Char × List Char) :=
  if body.takeWhile hostChar = [] then none
  else some (secure, body.takeWhile hostChar, body.dropWhile hostChar)

/-- Parse an `http(s)` URL into scheme flag, host and path+query remainder.
The fragment (everything from the first `#`) is cut first, which matches
`urlObj.hash = ''` followed by reading `urlObj.href`. -/
def parseHttp (cs : List Char) : Option (Bool × List Char × List Char) :=
  match cs.takeWhile neHash with
  | 'h' :: 't' :: 't' :: 'p' :: 's' :: ':' :: '/' :: '/' :: body => mkParsed true body
  | 'h' :: 't' :: 't' :: 'p' :: ':' :: '/' :: '/' :: body => mkParsed false body
  | _ => none

/-- The serializer inserts a leading `/` when the path is empty (so that
`https://x.com` and `https://x.com?q` serialize with a `/` after the host),
mirroring `urlObj.href`. -/
def fixRest (r : List Char) : List Char :=
  match r with
  | [] => ['/']
  | '?' :: t => '/' :: '?' :: t
  | r => r

/-- Serialize a parsed URL back to its canonical string (`urlObj.href`
with the fragment already cleared). -/
def serializeHttp : Bool × List Char × List Char → List Char
  | (true, host, rest) =>
    'h' :: 't' :: 't' :: 'p' :: 's' :: ':' :: '/' :: '/' :: (host ++ fixRest rest)
  | (false, host, rest) =>
    'h' :: 't' :: 't' :: 'p' :: ':' :: '/' :: '/' :: (host ++ fixRest rest)

/-- Function `normalizeUrl` of `scanner.js` / `app.js` at the character level:
parse, drop the fragment, take `href`, and strip a single trailing `/`. -/
def normChars (cs : List Char) : Option (List Char) :=
  (parseHttp cs).map (fun u =>
    if (serializeHttp u).getLast? = some '/' then (serializeHttp u).dropLast
    else serializeHttp u)

/-- Function `normalizeUrl(url)` from `src/api/src/scanner.js` (identical in
`src/dist/app.js`): returns the canonical URL string, or `none` when the
`URL` constructor would throw. -/
def normalizeUrl (s : String) : Option String :=
  (normChars s.data).map String.mk

/-- Function `getBaseDomain(url)`: hostname with a leading `www.` stripped; empty
string when the URL fails to parse. -/
def getBaseDomain (s : String) : String :=
  match parseHttp s.data with
  | none => ""
  | some (_, host, _) =>
    String.mk (if "www.".data.isPrefixOf host then host.drop 4 else host)

/-! ### Round-trip lemmas for the URL model

These support settling the spec's idempotence property of `normalizeUrl`
(claim C7): re-parsing a canonical serialization recovers its components. -/

/-- The scheme prefix of a serialized URL, as a character list. -/
def preChars : Bool → List Char
  | true => ['h', 't', 't', 'p', 's', ':', '/', '/']
  | false => ['h', 't', 't', 'p', ':', '/', '/']

/-! ### Scanner data model (from `src/api/src/scanner.js`)

`ScanOptions` holds the resolved `this.options` values.  `FetchedPage` is
the outcome of `fetchPage` + `parseHtml` for one URL, abstracted as an
oracle `world : String → Option FetchedPage` (`none` models a fetch
failure, where `fetchPage` returns `null`).  `PageRecord` is the page data
object stored in `siteMap`, with its crawl-time `depth`/`parent` fields. -/

structure ScanOptions where
  maxPages : Nat
  maxDepth : Nat
  delayMs : Nat
  minQualityScore : Nat
  pageTypes : Option (List String)
deriving DecidableEq

structure FetchedPage where
  title : String
  qualityScore : Nat
  wordCount : Nat
  qaItems : List (String × String)
  pageType : String
  links : List String
deriving DecidableEq

structure PageRecord where
  url : String
  title : String
  qualityScore : Nat
  wordCount : Nat
  qaItems : List (String × String)
  pageType : String
  links : List String
  depth : Nat
  parent : Option String
deriving DecidableEq, Inhabited

/-- Lookup in the `siteMap` (`Map.get`): value of the first matching key. -/
def lookupMap : List (String × PageRecord) → String → Option PageRecord
  | [], _ => none
  | (k', v) :: rest, k => if k' = k then some v else lookupMap rest k

/-- JavaScript `Map.set`: replace the value at an existing key, else append. -/
def mapSet : List (String × PageRecord) → String → PageRecord → List (String × PageRecord)
  | [], k, v => [(k, v)]
  | (k', v') :: rest, k, v =>
    if k' = k then (k', v) :: rest else (k', v') :: mapSet rest k v

/-- The `pageRelationships` update: append `child` to the parent's list
(creating it when absent); no-op for the root (`parent === null`). -/
def updateRel (rel : List (String × List String)) (parent : Option String)
    (child : String) : List (String × List String) :=
  match parent with
  | none => rel
  | some p =>
    if rel.any (fun kv => kv.1 = p) then
      rel.map (fun kv => if kv.1 = p then (kv.1, kv.2 ++ [child]) else kv)
    else rel ++ [(p, [child])]

/-! ### `shouldCrawl` — server variant (`src/api/src/scanner.js`) -/

/-- List `skipExtensions` of `scanner.js` (the same list appears in `app.js`). -/
def skipExtensions : List String :=
  [".pdf", ".doc", ".docx", ".xls", ".xlsx", ".ppt", ".pptx",
   ".zip", ".rar", ".jpg", ".jpeg", ".png", ".gif", ".svg",
   ".mp3", ".mp4", ".avi", ".mov", ".css", ".js"]

/-- List `skipPatterns` of `scanner.js` (server variant). -/
def skipPatterns : List String :=
  ["/login", "/logout", "/signin", "/signup", "/register",
   "/cart", "/checkout", "/payment", "/account", "/profile",
   "/admin", "/dashboard", "/settings", "/preferences",
   "/search?", "/filter?", "?sort=", "?page=",
   "/download/", "/print/"]

/-- The `priorityPatterns` map of `scanner.js` (`priorityPatterns[pageType]`). -/
def priorityPatterns (t : String) : Option (List String) :=
  if t = "FAQ" then some ["/faq", "/faqs", "/questions"]
  else if t = "Documentation" then some ["/docs", "/documentation", "/manual"]
  else if t = "Support" then some ["/support", "/help", "/assistance"]
  else if t = "Guide" then some ["/guide", "/tutorial", "/how-to"]
  else if t = "API" then some ["/api", "/developer", "/reference"]
  else none

/-- Function `shouldCrawl(url)` of `src/api/src/scanner.js`: skip-extension and
skip-pattern tests use naive `String.includes`.  The final `pageTypes`
prioritization loop can only `return true`, and the function returns `true`
after it, so both arms of the last test are `true` (mirroring the source). -/
def shouldCrawl (opts : ScanOptions) (visited : List String) (baseDomain : String)
    (url : String) : Bool :=
  if url = "" ∨ url ∈ visited then false
  else if getBaseDomain url ≠ baseDomain then false
  else
    let urlLower := toLowerStr url
    if skipExtensions.any (fun e => strIncludes urlLower e) then false
    else if skipPatterns.any (fun p => strIncludes urlLower p) then false
    else
      match opts.pageTypes with
      | some ts =>
        if 0 < ts.length then
          if ts.any (fun t =>
              match priorityPatterns t with
              | some ps => ps.any (fun p => strIncludes urlLower p)
              | none => false) then
            true
          else true
        else true
      | none => true

/-! ### `shouldCrawl` — browser variant (`src/dist/app.js`)

This is the variant rewritten after the repository's fix report: skip
patterns match only at a path boundary (pattern at the end of the URL, or
followed by `/` or `?`). -/

/-- List `skipPatterns` of `app.js` (browser variant, post-fix). -/
def appSkipPatterns : List String :=
  ["/login", "/logout", "/signin", "/signup", "/register",
   "/cart", "/checkout", "/payment",
   "/user/account", "/user/profile", "/my-account", "/myprofile",
   "/wp-admin", "/admin/", "/administrator/",
   "?search=", "?filter=", "?sort=", "?page=",
   "/download.php", "/print.php"]

/-- List `priorityPatterns` of `app.js` (browser variant, flat list). -/
def appPriorityPatterns : List String :=
  ["/help", "/support", "/faq", "/documentation", "/docs",
   "/guide", "/tutorial", "/how-to", "/knowledge",
   "/troubleshoot", "/api", "/manual", "/resources"]

/-- Function `shouldCrawl(url)` of `src/dist/app.js`: a skip pattern only rejects
when it also sits at a boundary (`endsWith(pattern)`, or
`includes(pattern + '/')`, or `includes(pattern + '?')`). -/
def appShouldCrawl (visited : List String) (baseDomain : String) (url : String) : Bool :=
  if url = "" ∨ url ∈ visited then false
  else if getBaseDomain url ≠ baseDomain then false
  else
    let urlLower := toLowerStr url
    if skipExtensions.any (fun e => strIncludes urlLower e) then false
    else if appSkipPatterns.any (fun p =>
        strIncludes urlLower p &&
          (strEndsWith urlLower p || strIncludes urlLower (p ++ "/") ||
            strIncludes urlLower (p ++ "?"))) then false
    else if appPriorityPatterns.any (fun p => strIncludes urlLower p) then true
    else true

/-! ### The crawl loop (`crawl` of `src/api/src/scanner.js`)

The loop state mirrors the scanner instance fields.  `fetchLog` records the
URLs passed to `fetchPage` and `delayCount` the number of `delay(...)`
calls; both are observation fields with no influence on control flow,
used to state the error-handling and politeness properties. -/

structure CrawlState where
  visited : List String
  queue : List (String × Nat × Option String)
  siteMap : List (String × PageRecord)
  pageRelationships : List (String × List String)
  pagesScanned : Nat
  fetchLog : List String
  delayCount : Nat
deriving DecidableEq

/-- The body of one non-skipped loop iteration: mark visited, count the
page, record the parent relationship, fetch, and on success build the
`PageRecord`, store it when it passes the quality filter, and enqueue the
admissible links.  The politeness delay runs in both branches. -/
def processEntry (world : String → Option FetchedPage) (opts : ScanOptions)
    (baseDomain : String) (s : CrawlState) (url : String) (depth : Nat)
    (parent : Option String) (rest : List (String × Nat × Option String)) : CrawlState :=
  let s1 : CrawlState :=
    { visited := url :: s.visited
      queue := rest
      siteMap := s.siteMap
      pageRelationships := updateRel s.pageRelationships parent url
      pagesScanned := s.pagesScanned + 1
      fetchLog := s.fetchLog ++ [url]
      delayCount := s.delayCount }
  match world url with
  | none => { s1 with delayCount := s1.delayCount + 1 }
  | some pd =>
    let record : PageRecord :=
      { url := url, title := pd.title, qualityScore := pd.qualityScore,
        wordCount := pd.wordCount, qaItems := pd.qaItems, pageType := pd.pageType,
        links := pd.links, depth := depth, parent := parent }
    let s2 :=
      if opts.minQualityScore ≤ pd.qualityScore then
        { s1 with siteMap := mapSet s1.siteMap url record }
      else s1
    { s2 with
      queue := s2.queue ++
        (pd.links.filter (fun l => shouldCrawl opts s1.visited baseDomain l)).map
          (fun l => (l, depth + 1, some url))
      delayCount := s2.delayCount + 1 }

/-- The `while` loop of `crawl`, indexed by fuel: each iteration either
skips an already-visited or over-depth frontier entry, or processes it via
`processEntry`.  The loop stops when the frontier is empty or the page
budget is reached (fuel only bounds the number of iterations considered;
every claim below is proved for all fuel values, i.e. at every point during
or after the crawl). -/
def crawlLoop (world : String → Option FetchedPage) (opts : ScanOptions)
    (baseDomain : String) : Nat → CrawlState → CrawlState
  | 0, s => s
  | Nat.succ fuel, s =>
    match s.queue with
    | [] => s
    | (url, depth, parent) :: rest =>
      if s.pagesScanned < opts.maxPages then
        if url ∈ s.visited ∨ opts.maxDepth < depth then
          crawlLoop world opts baseDomain fuel { s with queue := rest }
        else
          crawlLoop world opts baseDomain fuel
            (processEntry world opts baseDomain s url depth parent rest)
      else s

/-- The session state at the start of `crawl`: everything cleared and the
frontier seeded with the normalized start URL at depth 0. -/
def initState (startUrl : String) : CrawlState :=
  { visited := [], queue := [(startUrl, 0, none)], siteMap := [],
    pageRelationships := [], pagesScanned := 0, fetchLog := [], delayCount := 0 }

/-- Function `crawl(url)` of `src/api/src/scanner.js`: normalize the start URL
(throwing `Invalid URL provided` when it fails to parse), compute the base
domain, seed the frontier, and run the loop. -/
def crawl (world : String → Option FetchedPage) (opts : ScanOptions)
    (inputUrl : String) (fuel : Nat) : Except String CrawlState :=
  match normalizeUrl inputUrl with
  | none => Except.error "Invalid URL provided"
  | some startUrl =>
    Except.ok (crawlLoop world opts (getBaseDomain startUrl) fuel (initState startUrl))

/-! ### Crawl-loop invariant -/

/-- The inductive invariant of the crawl loop, relative to the fetch oracle
`world`, the options and the normalized start URL:
1. the page budget is respected;
2. every stored record is keyed by its own URL, visited, within the depth
   bound, at or above the quality threshold, and backed by a successful
   fetch;
3. a stored record's parent is visited, and when the parent is itself
   stored the child's depth is the parent's depth plus one;
4. the same holds for the parent and depth of every frontier entry;
5. until the start URL is visited nothing has happened yet (the frontier
   holds exactly the seed entry and the map is empty);
6. the start URL's record, when present, is the root (depth 0, no parent). -/
def Inv (world : String → Option FetchedPage) (opts : ScanOptions)
    (startUrl : String) (s : CrawlState) : Prop :=
  s.pagesScanned ≤ opts.maxPages ∧
  (∀ k r, lookupMap s.siteMap k = some r →
    r.url = k ∧ k ∈ s.visited ∧ r.depth ≤ opts.maxDepth ∧
    opts.minQualityScore ≤ r.qualityScore ∧
    (∃ pd, world k = some pd ∧ r.qualityScore = pd.qualityScore)) ∧
  (∀ k r pp, lookupMap s.siteMap k = some r → r.parent = some pp →
    pp ∈ s.visited ∧ ∀ rp, lookupMap s.siteMap pp = some rp → r.depth = rp.depth + 1) ∧
  (∀ u d p, (u, d, p) ∈ s.queue → ∀ pp, p = some pp →
    pp ∈ s.visited ∧ ∀ rp, lookupMap s.siteMap pp = some rp → d = rp.depth + 1) ∧
  (startUrl ∉ s.visited → s.queue = [(startUrl, 0, none)] ∧ s.siteMap = []) ∧
  (∀ r0, lookupMap s.siteMap startUrl = some r0 → r0.depth = 0 ∧ r0.parent = none)

/-- The record built from a fetched page at a given frontier entry. -/
def buildRecord (url : String) (depth : Nat) (parent : Option String)
    (pd : FetchedPage) : PageRecord :=
  { url := url, title := pd.title, qualityScore := pd.qualityScore,
    wordCount := pd.wordCount, qaItems := pd.qaItems, pageType := pd.pageType,
    links := pd.links, depth := depth, parent := parent }

/-! ### `classifyPageType` (browser variant, `src/dist/app.js`)

Inputs beyond the URL are the facts the function reads off the document:
title text, body text, the `og:type` meta content (`none` when the meta
element is absent) and the number of `[itemtype*="FAQPage"]` elements. -/

/-- The `og:type` hint test: `if (ogType)` guards against an absent or
empty content value, then `ogType.includes(needle)`. -/
def ogCond (ogType : Option String) (needle : String) : Bool :=
  match ogType with
  | some og => og ≠ "" && strIncludes og needle
  | none => false

/-- Function `classifyPageType(url, doc)` of `src/dist/app.js`, as a function of the
document facts it reads.  The `if (ogType) { ... }` block falls through to
the body-text heuristic when no `og:type` keyword matches. -/
def classifyPageType (startUrl url title bodyText : String) (ogType : Option String)
    (faqSchemaCount : Nat) : String :=
  let urlLower := toLowerStr url
  let titleL := toLowerStr title
  let bodyL := toLowerStr bodyText
  if strIncludes urlLower "/faq" || strIncludes urlLower "/faqs" ||
      strIncludes titleL "frequently asked" || strIncludes titleL "faq" then "FAQ"
  else if strIncludes urlLower "/help" || strIncludes urlLower "/support" ||
      strIncludes urlLower "/customer-service" || strIncludes urlLower "/assistance" then
    "Support"
  else if strIncludes urlLower "/documentation" || strIncludes urlLower "/docs" ||
      strIncludes urlLower "/manual" || strIncludes urlLower "/user-guide" then
    "Documentation"
  else if strIncludes urlLower "/guide" || strIncludes urlLower "/how-to" ||
      strIncludes urlLower "/tutorial" || strIncludes urlLower "/getting-started" then
    "Guide"
  else if strIncludes urlLower "/troubleshoot" || strIncludes urlLower "/problem" ||
      strIncludes urlLower "/solution" || strIncludes urlLower "/fix" then
    "Troubleshooting"
  else if strIncludes urlLower "/api" || strIncludes urlLower "/developer" ||
      strIncludes urlLower "/reference" then "API Documentation"
  else if strIncludes urlLower "/knowledge" || strIncludes urlLower "/kb" ||
      strIncludes urlLower "/resources" then "Knowledge Base"
  else if strIncludes urlLower "/policy" || strIncludes urlLower "/terms" ||
      strIncludes urlLower "/privacy" || strIncludes urlLower "/legal" then "Legal/Policy"
  else if strIncludes urlLower "/product" || strIncludes urlLower "/shop" ||
      strIncludes urlLower "/store" || strIncludes urlLower "/catalog" then "Product"
  else if strIncludes urlLower "/service" || strIncludes urlLower "/offering" then
    "Service"
  else if strIncludes urlLower "/contact" || strIncludes urlLower "/reach-us" then
    "Contact"
  else if strIncludes urlLower "/about" || strIncludes urlLower "/company" then "About"
  else if strIncludes urlLower "/blog" || strIncludes urlLower "/post" ||
      strIncludes urlLower "/article" || strIncludes urlLower "/news" then "Blog/Article"
  else if strIncludes urlLower "/review" || strIncludes urlLower "/testimonial" ||
      strIncludes urlLower "/feedback" then "Reviews"
  else if urlLower == startUrl || urlLower == startUrl ++ "/" then "Homepage"
  else if ogCond ogType "article" then "Blog/Article"
  else if ogCond ogType "product" then "Product"
  else if ogCond ogType "faq" then "FAQ"
  else if strIncludes bodyL "frequently asked questions" || decide (0 < faqSchemaCount) then
    "FAQ"
  else "Other"

/-- First-match evaluation of an ordered rule list; the default is
`"Other"`. -/
def firstMatch : List (Bool × String) → String
  | [] => "Other"
  | (b, r) :: t => if b then r else firstMatch t

/-- The rule list actually implemented by `classifyPageType`, in its
execution order: the combined URL-or-title FAQ rule, the thirteen further
URL-keyword rules, the start-URL Homepage rule, the three `og:type` rules
and the body-text heuristic. -/
def classifyRules (startUrl urlLower titleL bodyL : String) (ogType : Option String)
    (faqSchemaCount : Nat) : List (Bool × String) :=
  [ (strIncludes urlLower "/faq" || strIncludes urlLower "/faqs" ||
      strIncludes titleL "frequently asked" || strIncludes titleL "faq", "FAQ"),
    (strIncludes urlLower "/help" || strIncludes urlLower "/support" ||
      strIncludes urlLower "/customer-service" || strIncludes urlLower "/assistance",
      "Support"),
    (strIncludes urlLower "/documentation" || strIncludes urlLower "/docs" ||
      strIncludes urlLower "/manual" || strIncludes urlLower "/user-guide",
      "Documentation"),
    (strIncludes urlLower "/guide" || strIncludes urlLower "/how-to" ||
      strIncludes urlLower "/tutorial" || strIncludes urlLower "/getting-started",
      "Guide"),
    (strIncludes urlLower "/troubleshoot" || strIncludes urlLower "/problem" ||
      strIncludes urlLower "/solution" || strIncludes urlLower "/fix",
      "Troubleshooting"),
    (strIncludes urlLower "/api" || strIncludes urlLower "/developer" ||
      strIncludes urlLower "/reference", "API Documentation"),
    (strIncludes urlLower "/knowledge" || strIncludes urlLower "/kb" ||
      strIncludes urlLower "/resources", "Knowledge Base"),
    (strIncludes urlLower "/policy" || strIncludes urlLower "/terms" ||
      strIncludes urlLower "/privacy" || strIncludes urlLower "/legal", "Legal/Policy"),
    (strIncludes urlLower "/product" || strIncludes urlLower "/shop" ||
      strIncludes urlLower "/store" || strIncludes urlLower "/catalog", "Product"),
    (strIncludes urlLower "/service" || strIncludes urlLower "/offering", "Service"),
    (strIncludes urlLower "/contact" || strIncludes urlLower "/reach-us", "Contact"),
    (strIncludes urlLower "/about" || strIncludes urlLower "/company", "About"),
    (strIncludes urlLower "/blog" || strIncludes urlLower "/post" ||
      strIncludes urlLower "/article" || strIncludes urlLower "/news", "Blog/Article"),
    (strIncludes urlLower "/review" || strIncludes urlLower "/testimonial" ||
      strIncludes urlLower "/feedback", "Reviews"),
    (urlLower == startUrl || urlLower == startUrl ++ "/", "Homepage"),
    (ogCond ogType "article", "Blog/Article"),
    (ogCond ogType "product", "Product"),
    (ogCond ogType "faq", "FAQ"),
    (strIncludes bodyL "frequently asked questions" || decide (0 < faqSchemaCount),
      "FAQ") ]

/-- The decision order asserted by the spec sentence behind claim C3,
stated as its own classifier: URL-path keywords only, then title keywords,
then the `og:type` hint, then the body-text heuristic, then the exact
start-URL match, then `"Other"`. -/
def classifyClaimOrder (startUrl url title bodyText : String)
    (ogType : Option String) (faqSchemaCount : Nat) : String :=
  let urlLower := toLowerStr url
  let titleL := toLowerStr title
  let bodyL := toLowerStr bodyText
  if strIncludes urlLower "/faq" || strIncludes urlLower "/faqs" then "FAQ"
  else if strIncludes urlLower "/help" || strIncludes urlLower "/support" ||
      strIncludes urlLower "/customer-service" || strIncludes urlLower "/assistance" then
    "Support"
  else if strIncludes urlLower "/documentation" || strIncludes urlLower "/docs" ||
      strIncludes urlLower "/manual" || strIncludes urlLower "/user-guide" then
    "Documentation"
  else if strIncludes urlLower "/guide" || strIncludes urlLower "/how-to" ||
      strIncludes urlLower "/tutorial" || strIncludes urlLower "/getting-started" then
    "Guide"
  else if strIncludes urlLower "/troubleshoot" || strIncludes urlLower "/problem" ||
      strIncludes urlLower "/solution" || strIncludes urlLower "/fix" then
    "Troubleshooting"
  else if strIncludes urlLower "/api" || strIncludes urlLower "/developer" ||
      strIncludes urlLower "/reference" then "API Documentation"
  else if strIncludes urlLower "/knowledge" || strIncludes urlLower "/kb" ||
      strIncludes urlLower "/resources" then "Knowledge Base"
  else if strIncludes urlLower "/policy" || strIncludes urlLower "/terms" ||
      strIncludes urlLower "/privacy" || strIncludes urlLower "/legal" then "Legal/Policy"
  else if strIncludes urlLower "/product" || strIncludes urlLower "/shop" ||
      strIncludes urlLower "/store" || strIncludes urlLower "/catalog" then "Product"
  else if strIncludes urlLower "/service" || strIncludes urlLower "/offering" then
    "Service"
  else if strIncludes urlLower "/contact" || strIncludes urlLower "/reach-us" then
    "Contact"
  else if strIncludes urlLower "/about" || strIncludes urlLower "/company" then "About"
  else if strIncludes urlLower "/blog" || strIncludes urlLower "/post" ||
      strIncludes urlLower "/article" || strIncludes urlLower "/news" then "Blog/Article"
  else if strIncludes urlLower "/review" || strIncludes urlLower "/testimonial" ||
      strIncludes urlLower "/feedback" then "Reviews"
  else if strIncludes titleL "frequently asked" || strIncludes titleL "faq" then "FAQ"
  else if ogCond ogType "article" then "Blog/Article"
  else if ogCond ogType "product" then "Product"
  else if ogCond ogType "faq" then "FAQ"
  else if strIncludes bodyL "frequently asked questions" || decide (0 < faqSchemaCount) then
    "FAQ"
  else if urlLower == startUrl || urlLower == startUrl ++ "/" then "Homepage"
  else "Other"

/-! ### `calculateQualityScore` (identical in both variants) -/

/-- The `content` object produced by `extractFullContent`, restricted to
the fields the scorer and exporters read. -/
structure PageContent where
  text : String
  paragraphs : List String
deriving DecidableEq

/-- The heading summary produced by `extractHeadingStructure` (`hierarchy`
entries carry level and text). -/
structure HeadingStructure where
  hierarchy : List (Nat × String)
  h1 : Nat
  h2 : Nat
  h3 : Nat
deriving DecidableEq

/-- List `valuableTypes` of `calculateQualityScore`. -/
def valuableTypes : List String := ["FAQ", "Documentation", "Guide", "Support", "Help"]

/-- Function `calculateQualityScore(content, headings, qaItems, pageType)`: additive
heuristic capped at 100 (`Math.min(100, score)`). -/
def calculateQualityScore (content : PageContent) (headings : HeadingStructure)
    (qaItems : List (String × String)) (pageType : String) : Nat :=
  let score1 := if 500 < content.text.length then 0 + 20 else 0
  let score2 := if 1500 < content.text.length then score1 + 20 else score1
  let score3 := if 3000 < content.text.length then score2 + 10 else score2
  let score4 := if 3 < headings.hierarchy.length then score3 + 15 else score3
  let score5 := if 2 < headings.h2 then score4 + 10 else score4
  let score6 := if 0 < qaItems.length then score5 + 25 else score5
  let score7 := if 5 < qaItems.length then score6 + 15 else score6
  let score8 := if pageType ∈ valuableTypes then score7 + 20 else score7
  min 100 score8

/-! ### Exporters (`exportForRAG` / `exportVectorDB` of `scanner.js`)

Modelled as the list of documents / vectors the exporters build; the final
`JSON.stringify` envelope is a mechanical serialization of these lists. -/

/-- A page as consumed by `exportData` (the fields the exporters read). -/
structure ExportPage where
  url : String
  title : String
  metaDescription : String
  metaKeywords : String
  contentText : String
  paragraphs : List String
  wordCount : Nat
  qaItems : List (String × String)
  pageType : String
  qualityScore : Nat
  depth : Nat
deriving DecidableEq

/-- A document of the `rag` export format. -/
structure RagDocument where
  id : String
  url : String
  title : String
  type : String
  content : String
  chunks : List String
  metaDescription : String
  metaKeywords : String
  metaPageType : String
  metaQualityScore : Nat
  metaWordCount : Nat
  metaDepth : Nat
  metaQaCount : Nat
deriving DecidableEq

/-- JavaScript `url.replace(/[^a-zA-Z0-9]/g, '_')`. -/
def sanitizeId (s : String) : String :=
  String.mk (s.data.map (fun c => if c.isAlphanum then c else '_'))

/-- The `chunks` array of one RAG document: paragraphs longer than 100
characters, then every Q&A pair rendered as `Question: ...\nAnswer: ...`. -/
def ragChunks (p : ExportPage) : List String :=
  p.paragraphs.filter (fun par => 100 < par.length) ++
    p.qaItems.map (fun qa => "Question: " ++ qa.1 ++ "\n" ++ "Answer: " ++ qa.2)

/-- One document of `exportForRAG`. -/
def ragDocument (domain : String) (p : ExportPage) : RagDocument :=
  { id := domain ++ "_" ++ sanitizeId p.url, url := p.url, title := p.title,
    type := p.pageType, content := p.contentText, chunks := ragChunks p,
    metaDescription := p.metaDescription, metaKeywords := p.metaKeywords,
    metaPageType := p.pageType, metaQualityScore := p.qualityScore,
    metaWordCount := p.wordCount, metaDepth := p.depth,
    metaQaCount := p.qaItems.length }

/-- The `documents` array of `exportForRAG`: pages with
`qualityScore < 30` are skipped (`continue`). -/
def ragDocuments (domain : String) : List ExportPage → List RagDocument
  | [] => []
  | p :: rest =>
    if p.qualityScore < 30 then ragDocuments domain rest
    else ragDocument domain p :: ragDocuments domain rest

/-- A vector of the `vectordb` export format. -/
structure VectorEntry where
  id : String
  text : String
  metaUrl : String
  metaTitle : String
  metaPageType : String
deriving DecidableEq

/-- The vectors contributed by one page in `exportVectorDB`: paragraphs
longer than 100 characters (indexed by their original position) and every
Q&A pair. -/
def pageVectors (p : ExportPage) : List VectorEntry :=
  (p.paragraphs.enum.filter (fun ip => 100 < ip.2.length)).map (fun ip =>
    { id := p.url ++ "_chunk_" ++ toString ip.1, text := ip.2,
      metaUrl := p.url, metaTitle := p.title, metaPageType := p.pageType }) ++
  p.qaItems.enum.map (fun iqa =>
    { id := p.url ++ "_qa_" ++ toString iqa.1, text := iqa.2.1 ++ " " ++ iqa.2.2,
      metaUrl := p.url, metaTitle := p.title, metaPageType := "FAQ" })

/-- The `vectors` array of `exportVectorDB`: pages with
`qualityScore < 30` are skipped (`continue`). -/
def vectorEntries : List ExportPage → List VectorEntry
  | [] => []
  | p :: rest =>
    if p.qualityScore < 30 then vectorEntries rest
    else pageVectors p ++ vectorEntries rest

/-! ### `calculateStatistics` (`src/api/src/scanner.js`) -/

structure CrawlStatistics where
  totalPages : Nat
  totalQA : Nat
  totalWords : Nat
  avgQualityScore : Nat
  faqPages : Nat
  docsPages : Nat
  avgWordsPerPage : Nat
deriving DecidableEq

/-- JavaScript `Math.round(num / den) || 0`: division by zero yields `NaN`, which
`|| 0` maps to `0`; otherwise round half up (`⌊num/den + 1/2⌋`). -/
def jsRoundDivOrZero (num den : Nat) : Nat :=
  if den = 0 then 0 else (2 * num + den) / (2 * den)

/-- Function `calculateStatistics()` over the retained pages (the values of
`this.siteMap`). -/
def calculateStatistics (pages : List PageRecord) : CrawlStatistics :=
  let totalQA := (pages.map (fun p => p.qaItems.length)).sum
  let totalWords := (pages.map (fun p => p.wordCount)).sum
  let sumQuality := (pages.map (fun p => p.qualityScore)).sum
  { totalPages := pages.length, totalQA := totalQA, totalWords := totalWords,
    avgQualityScore := jsRoundDivOrZero sumQuality pages.length,
    faqPages := (pages.filter (fun p => p.pageType == "FAQ")).length,
    docsPages := (pages.filter (fun p =>
      p.pageType ∈ ["Documentation", "Guide", "Support", "Help"])).length,
    avgWordsPerPage := jsRoundDivOrZero totalWords pages.length }

/-! ### Concrete example fixtures

A two-page site used to instantiate the theorems below on concrete runs:
the start page scores 10 (below the default threshold 30) and links to a
high-quality child page and to a page whose fetch fails. -/

def exOpts : ScanOptions :=
  { maxPages := 5, maxDepth := 3, delayMs := 500, minQualityScore := 30,
    pageTypes := none }

def exWorld : String → Option FetchedPage := fun u =>
  if u = "https://site.com" then
    some { title := "Home", qualityScore := 10, wordCount := 50, qaItems := [],
           pageType := "Other",
           links := ["https://site.com/kid", "https://site.com/gone"] }
  else if u = "https://site.com/kid" then
    some { title := "Kid", qualityScore := 80, wordCount := 200, qaItems := [],
           pageType := "FAQ", links := [] }
  else none

/-- The final state of the example crawl. -/
def exRun : CrawlState :=
  match crawl exWorld exOpts "https://site.com" 10 with
  | Except.ok st => st
  | Except.error _ => initState ""

/-- An export-stage page below the fixed export cutoff of 30. -/
def exLowPage : ExportPage :=
  { url := "https://site.com/low", title := "Low", metaDescription := "",
    metaKeywords := "", contentText := "", paragraphs := [], wordCount := 0,
    qaItems := [], pageType := "Other", qualityScore := 10, depth := 0 }

theorem serializeHttp_eq (b : Bool) (h r : List Char) :
    serializeHttp (b, h, r) = preChars b ++ (h ++ fixRest r) := by
  cases b <;> rfl

theorem takeWhile_neHash_self {l : List Char} (hl : ∀ c ∈ l, c ≠ '#') :
    List.takeWhile neHash l = l :=
  List.takeWhile_eq_self_iff.mpr (by intro a ha; simpa [neHash] using hl a ha)

theorem dropWhile_head_false {p : Char → Bool} :
    ∀ {l : List Char} {c : Char} {t : List Char}, l.dropWhile p = c :: t → p c = false := by
  intro l
  induction l with
  | nil => intro c t hh; simp [List.dropWhile] at hh
  | cons a l ih =>
    intro c t hh
    by_cases hpa : p a
    · rw [List.dropWhile_cons_of_pos hpa] at hh; exact ih hh
    · rw [List.dropWhile_cons_of_neg hpa] at hh
      injection hh with h1 h2
      subst h1
      exact Bool.eq_false_iff.mpr hpa

theorem getLast?_append_right (l₁ : List Char) {l₂ : List Char} (h : l₂ ≠ []) :
    (l₁ ++ l₂).getLast? = l₂.getLast? := by
  rw [List.getLast?_append]
  cases l₂ with
  | nil => simp at h
  | cons a t => simp [List.getLast?_cons]

theorem mkParsed_sound {body : List Char} {b0 b : Bool} {h r : List Char}
    (hbody : ∀ c ∈ body, c ≠ '#')
    (hmk : mkParsed b0 body = some (b, h, r)) :
    h ≠ [] ∧ (∀ c ∈ h, hostChar c = true) ∧ (∀ c ∈ h, c ≠ '#') ∧
      (∀ c ∈ r, c ≠ '#') ∧ (r = [] ∨ (∃ t, r = '/' :: t) ∨ (∃ t, r = '?' :: t)) := by
  unfold mkParsed at hmk
  by_cases hh : body.takeWhile hostChar = []
  · simp [hh] at hmk
  · rw [if_neg hh] at hmk
    simp only [Option.some.injEq, Prod.mk.injEq] at hmk
    obtain ⟨rfl, rfl, rfl⟩ := hmk
    refine ⟨hh, fun c hc => List.mem_takeWhile_imp hc, fun c hc => ?_, fun c hc => ?_, ?_⟩
    · exact hbody c ((List.takeWhile_sublist hostChar).subset hc)
    · exact hbody c ((List.dropWhile_sublist hostChar).subset hc)
    · rcases hr : body.dropWhile hostChar with _ | ⟨c, t⟩
      · exact Or.inl rfl
      · have hc := dropWhile_head_false hr
        simp only [hostChar, Bool.and_eq_false_iff, decide_eq_false_iff_not, not_not] at hc
        rcases hc with rfl | rfl
        · exact Or.inr (Or.inl ⟨t, rfl⟩)
        · exact Or.inr (Or.inr ⟨t, rfl⟩)

theorem parseHttp_preChars (b : Bool) (l : List Char) (hl : ∀ c ∈ l, c ≠ '#') :
    parseHttp (preChars b ++ l) = mkParsed b l := by
  cases b
  · show parseHttp ('h' :: 't' :: 't' :: 'p' :: ':' :: '/' :: '/' :: l) = _
    unfold parseHttp
    rw [List.takeWhile_cons_of_pos (p := neHash) (by decide),
      List.takeWhile_cons_of_pos (by decide), List.takeWhile_cons_of_pos (by decide),
      List.takeWhile_cons_of_pos (by decide), List.takeWhile_cons_of_pos (by decide),
      List.takeWhile_cons_of_pos (by decide), List.takeWhile_cons_of_pos (by decide),
      takeWhile_neHash_self hl]
    rfl
  · show parseHttp ('h' :: 't' :: 't' :: 'p' :: 's' :: ':' :: '/' :: '/' :: l) = _
    unfold parseHttp
    rw [List.takeWhile_cons_of_pos (p := neHash) (by decide),
      List.takeWhile_cons_of_pos (by decide), List.takeWhile_cons_of_pos (by decide),
      List.takeWhile_cons_of_pos (by decide), List.takeWhile_cons_of_pos (by decide),
      List.takeWhile_cons_of_pos (by decide), List.takeWhile_cons_of_pos (by decide),
      List.takeWhile_cons_of_pos (by decide), takeWhile_neHash_self hl]
    rfl

theorem mkParsed_eval {b : Bool} {h fr : List Char}
    (hne : h ≠ []) (hhost : ∀ c ∈ h, hostChar c = true)
    (hfr : fr = [] ∨ ∃ t, fr = '/' :: t) :
    mkParsed b (h ++ fr) = some (b, h, fr) := by
  have hwt : List.takeWhile hostChar (h ++ fr) = h := by
    rw [List.takeWhile_append_of_pos hhost]
    rcases hfr with rfl | ⟨t, rfl⟩
    · simp
    · rw [List.takeWhile_cons_of_neg (by decide)]; simp
  have hwd : List.dropWhile hostChar (h ++ fr) = fr := by
    rw [List.dropWhile_append_of_pos hhost]
    rcases hfr with rfl | ⟨t, rfl⟩
    · simp
    · rw [List.dropWhile_cons_of_neg (by decide)]
  unfold mkParsed
  rw [hwt, hwd, if_neg hne]

theorem fixRest_shape {r : List Char}
    (hshape : r = [] ∨ (∃ t, r = '/' :: t) ∨ (∃ t, r = '?' :: t)) :
    ∃ t, fixRest r = '/' :: t ∧ ∀ c ∈ t, c ∈ r := by
  rcases hshape with rfl | ⟨t, rfl⟩ | ⟨t, rfl⟩
  · exact ⟨[], rfl, by simp⟩
  · exact ⟨t, rfl, by intro c hc; simp [hc]⟩
  · exact ⟨'?' :: t, rfl, by intro c hc; simpa using hc⟩

theorem fixRest_slash (t : List Char) : fixRest ('/' :: t) = '/' :: t := rfl

theorem parseHttp_sound {cs : List Char} {b : Bool} {h r : List Char}
    (hp : parseHttp cs = some (b, h, r)) :
    h ≠ [] ∧ (∀ c ∈ h, hostChar c = true) ∧ (∀ c ∈ h, c ≠ '#') ∧
      (∀ c ∈ r, c ≠ '#') ∧ (r = [] ∨ (∃ t, r = '/' :: t) ∨ (∃ t, r = '?' :: t)) := by
  unfold parseHttp at hp
  split at hp
  next body heq =>
    have hbody : ∀ c ∈ body, c ≠ '#' := by
      intro c hc
      have hmem : c ∈ cs.takeWhile neHash := by rw [heq]; simp [hc]
      simpa [neHash] using List.mem_takeWhile_imp hmem
    exact mkParsed_sound hbody hp
  next body heq =>
    have hbody : ∀ c ∈ body, c ≠ '#' := by
      intro c hc
      have hmem : c ∈ cs.takeWhile neHash := by rw [heq]; simp [hc]
      simpa [neHash] using List.mem_takeWhile_imp hmem
    exact mkParsed_sound hbody hp
  next => exact absurd hp (by simp)

/-- Idempotence of `normalizeUrl` at the character level, for outputs that do
not end in `/` (the amended form of the spec's idempotence property; outputs
ending in `/` arise from serialized paths ending in `//` and are stripped a
second time on re-normalization). -/
theorem normChars_idem {cs v : List Char} (hn : normChars cs = some v)
    (hv : v.getLast? ≠ some '/') : normChars v = some v := by
  unfold normChars at hn
  cases hp : parseHttp cs with
  | none => rw [hp] at hn; exact absurd hn (by simp)
  | some u =>
    obtain ⟨b, h, r⟩ := u
    rw [hp] at hn
    simp only [Option.map_some', Option.some.injEq] at hn
    obtain ⟨hne, hhost, hhash, hrhash, hshape⟩ := parseHttp_sound hp
    obtain ⟨t, hft, htsub⟩ := fixRest_shape hshape
    have hfrne : fixRest r ≠ [] := by rw [hft]; simp
    have hfrhash : ∀ c ∈ fixRest r, c ≠ '#' := by
      intro c hc
      rw [hft] at hc
      rcases List.mem_cons.mp hc with rfl | hc
      · decide
      · exact hrhash c (htsub c hc)
    have hbodyhash : ∀ c ∈ h ++ fixRest r, c ≠ '#' := by
      intro c hc
      rcases List.mem_append.mp hc with hc | hc
      · exact hhash c hc
      · exact hfrhash c hc
    have hslast : (serializeHttp (b, h, r)).getLast? = (fixRest r).getLast? := by
      rw [serializeHttp_eq, getLast?_append_right _ (by simp [hfrne]),
        getLast?_append_right _ hfrne]
    by_cases hl : (serializeHttp (b, h, r)).getLast? = some '/'
    · rw [if_pos hl] at hn
      have hvd : v = preChars b ++ (h ++ (fixRest r).dropLast) := by
        rw [← hn, serializeHttp_eq, List.dropLast_append_of_ne_nil _ (by simp [hfrne]),
          List.dropLast_append_of_ne_nil _ hfrne]
      cases t with
      | nil =>
        -- serialized path ends in exactly one slash: v is scheme://host
        have hv2 : v = preChars b ++ (h ++ []) := by rw [hvd, hft]; rfl
        unfold normChars
        rw [hv2, parseHttp_preChars b _ (by intro c hc; simp at hc; exact hhash c hc),
          mkParsed_eval hne hhost (Or.inl rfl)]
        simp only [Option.map_some', Option.some.injEq]
        rw [serializeHttp_eq]
        have : fixRest ([] : List Char) = ['/'] := rfl
        rw [this, if_pos (by rw [getLast?_append_right _ (by simp),
          getLast?_append_right _ (by simp)]; rfl)]
        rw [List.dropLast_append_of_ne_nil _ (by simp),
          List.dropLast_append_of_ne_nil _ (by simp)]
        rfl
      | cons c t2 =>
        -- the stripped path still starts with '/': re-normalizing is stable
        have hfr' : (fixRest r).dropLast = '/' :: (c :: t2).dropLast := by
          rw [hft]; rfl
        have hfr'hash : ∀ x ∈ h ++ (fixRest r).dropLast, x ≠ '#' := by
          intro x hx
          rcases List.mem_append.mp hx with hx | hx
          · exact hhash x hx
          · exact hfrhash x ((List.dropLast_sublist _).subset hx)
        unfold normChars
        rw [hvd, parseHttp_preChars b _ hfr'hash,
          mkParsed_eval hne hhost (Or.inr ⟨_, hfr'⟩)]
        simp only [Option.map_some', Option.some.injEq]
        rw [serializeHttp_eq, hfr', fixRest_slash, ← hfr', ← hvd, if_neg hv]
    · rw [if_neg hl] at hn
      have hv2 : v = preChars b ++ (h ++ fixRest r) := by rw [← hn, serializeHttp_eq]
      unfold normChars
      rw [hv2, parseHttp_preChars b _ hbodyhash,
        mkParsed_eval hne hhost (Or.inr (by rw [hft]; exact ⟨t, rfl⟩))]
      simp only [Option.map_some', Option.some.injEq]
      rw [serializeHttp_eq, hft, fixRest_slash, ← hft, ← hv2, if_neg hv]

theorem lookupMap_mapSet_self (m : List (String × PageRecord)) (k : String)
    (v : PageRecord) : lookupMap (mapSet m k v) k = some v := by
  induction m with
  | nil => simp [mapSet, lookupMap]
  | cons kv rest ih =>
    obtain ⟨k0, v0⟩ := kv
    by_cases h : k0 = k
    · simp [mapSet, lookupMap, h]
    · simp [mapSet, lookupMap, h, ih]

theorem lookupMap_mapSet_ne (m : List (String × PageRecord)) (k : String)
    (v : PageRecord) {k' : String} (h : k' ≠ k) :
    lookupMap (mapSet m k v) k' = lookupMap m k' := by
  induction m with
  | nil => simp [mapSet, lookupMap, Ne.symm h]
  | cons kv rest ih =>
    obtain ⟨k0, v0⟩ := kv
    by_cases h0 : k0 = k
    · subst h0
      simp [mapSet, lookupMap, Ne.symm h]
    · by_cases h1 : k0 = k'
      · simp [mapSet, lookupMap, h0, h1, h]
      · simp [mapSet, lookupMap, h0, h1, ih]

theorem processEntry_none {world : String → Option FetchedPage} {url : String}
    (opts : ScanOptions) (baseDomain : String) (s : CrawlState) (depth : Nat)
    (parent : Option String) (rest : List (String × Nat × Option String))
    (hw : world url = none) :
    processEntry world opts baseDomain s url depth parent rest =
      { visited := url :: s.visited, queue := rest, siteMap := s.siteMap,
        pageRelationships := updateRel s.pageRelationships parent url,
        pagesScanned := s.pagesScanned + 1, fetchLog := s.fetchLog ++ [url],
        delayCount := s.delayCount + 1 } := by
  unfold processEntry
  rw [hw]

theorem processEntry_some {world : String → Option FetchedPage} {url : String}
    {pd : FetchedPage} (opts : ScanOptions) (baseDomain : String) (s : CrawlState)
    (depth : Nat) (parent : Option String) (rest : List (String × Nat × Option String))
    (hw : world url = some pd) :
    processEntry world opts baseDomain s url depth parent rest =
      { visited := url :: s.visited,
        queue := rest ++
          (pd.links.filter (fun l => shouldCrawl opts (url :: s.visited) baseDomain l)).map
            (fun l => (l, depth + 1, some url)),
        siteMap :=
          if opts.minQualityScore ≤ pd.qualityScore then
            mapSet s.siteMap url (buildRecord url depth parent pd)
          else s.siteMap,
        pageRelationships := updateRel s.pageRelationships parent url,
        pagesScanned := s.pagesScanned + 1, fetchLog := s.fetchLog ++ [url],
        delayCount := s.delayCount + 1 } := by
  unfold processEntry
  rw [hw]
  by_cases hql : opts.minQualityScore ≤ pd.qualityScore <;>
    simp [hql, buildRecord]

theorem inv_skip {world : String → Option FetchedPage} {opts : ScanOptions}
    {startUrl : String} {s : CrawlState} {url : String} {depth : Nat}
    {parent : Option String} {rest : List (String × Nat × Option String)}
    (hInv : Inv world opts startUrl s) (hq : s.queue = (url, depth, parent) :: rest)
    (hcond : url ∈ s.visited ∨ opts.maxDepth < depth) :
    Inv world opts startUrl { s with queue := rest } := by
  obtain ⟨h1, h2, h3, h4, h5, h6⟩ := hInv
  refine ⟨h1, h2, h3, ?_, ?_, h6⟩
  · intro u d p hu pp hp
    exact h4 u d p (by rw [hq]; exact List.mem_cons_of_mem _ hu) pp hp
  · intro hst
    obtain ⟨hq0, _⟩ := h5 hst
    rw [hq] at hq0
    injection hq0 with he _
    injection he with he1 he2
    injection he2 with he2 he3
    subst he1
    subst he2
    rcases hcond with hc | hc
    · exact absurd hc hst
    · exact absurd hc (Nat.not_lt_zero _)

theorem inv_processEntry {world : String → Option FetchedPage} {opts : ScanOptions}
    {startUrl : String} {s : CrawlState} {url : String} {depth : Nat}
    {parent : Option String} {rest : List (String × Nat × Option String)}
    (hInv : Inv world opts startUrl s) (hq : s.queue = (url, depth, parent) :: rest)
    (hnv : url ∉ s.visited) (hd : ¬ opts.maxDepth < depth)
    (hb : s.pagesScanned < opts.maxPages) (baseDomain : String) :
    Inv world opts startUrl (processEntry world opts baseDomain s url depth parent rest) := by
  obtain ⟨h1, h2, h3, h4, h5, h6⟩ := hInv
  have hstart : ¬ startUrl ∉ url :: s.visited := by
    intro hst
    have hst' : startUrl ∉ s.visited := fun hmem => hst (List.mem_cons_of_mem _ hmem)
    obtain ⟨hq0, _⟩ := h5 hst'
    rw [hq] at hq0
    injection hq0 with he _
    injection he with he1 _
    exact hst (he1 ▸ List.mem_cons_self _ _)
  cases hw : world url with
  | none =>
    rw [processEntry_none _ _ _ _ _ _ hw]
    refine ⟨Nat.succ_le_of_lt hb, ?_, ?_, ?_, fun hst => absurd hst hstart, h6⟩
    · intro k r hk
      obtain ⟨hu, hv, hdep, hmin, hpd⟩ := h2 k r hk
      exact ⟨hu, List.mem_cons_of_mem _ hv, hdep, hmin, hpd⟩
    · intro k r pp hk hpp
      obtain ⟨hv, hdep⟩ := h3 k r pp hk hpp
      exact ⟨List.mem_cons_of_mem _ hv, hdep⟩
    · intro u d p hu pp hp
      obtain ⟨hv, hdep⟩ :=
        h4 u d p (by rw [hq]; exact List.mem_cons_of_mem _ hu) pp hp
      exact ⟨List.mem_cons_of_mem _ hv, hdep⟩
  | some pd =>
    rw [processEntry_some _ _ _ _ _ _ hw]
    by_cases hql : opts.minQualityScore ≤ pd.qualityScore
    · rw [if_pos hql]
      refine ⟨Nat.succ_le_of_lt hb, ?_, ?_, ?_, fun hst => absurd hst hstart, ?_⟩
      · intro k r hk
        by_cases hku : k = url
        · subst hku
          rw [lookupMap_mapSet_self] at hk
          injection hk with hk
          subst hk
          exact ⟨rfl, List.mem_cons_self _ _, Nat.le_of_not_lt hd, hql, ⟨pd, hw, rfl⟩⟩
        · rw [lookupMap_mapSet_ne _ _ _ hku] at hk
          obtain ⟨hu, hv, hdep, hmin, hpd⟩ := h2 k r hk
          exact ⟨hu, List.mem_cons_of_mem _ hv, hdep, hmin, hpd⟩
      · intro k r pp hk hpp
        by_cases hku : k = url
        · subst hku
          rw [lookupMap_mapSet_self] at hk
          injection hk with hk
          subst hk
          have hpar : parent = some pp := hpp
          obtain ⟨hv, hdep⟩ :=
            h4 k depth parent (by rw [hq]; exact List.mem_cons_self _ _) pp hpar
          have hppu : pp ≠ k := fun he => hnv (he ▸ hv)
          refine ⟨List.mem_cons_of_mem _ hv, ?_⟩
          intro rp hrp
          rw [lookupMap_mapSet_ne _ _ _ hppu] at hrp
          exact hdep rp hrp
        · rw [lookupMap_mapSet_ne _ _ _ hku] at hk
          obtain ⟨hv, hdep⟩ := h3 k r pp hk hpp
          have hppu : pp ≠ url := fun he => hnv (he ▸ hv)
          refine ⟨List.mem_cons_of_mem _ hv, ?_⟩
          intro rp hrp
          rw [lookupMap_mapSet_ne _ _ _ hppu] at hrp
          exact hdep rp hrp
      · intro u d p hu pp hp
        rcases List.mem_append.mp hu with hu | hu
        · obtain ⟨hv, hdep⟩ :=
            h4 u d p (by rw [hq]; exact List.mem_cons_of_mem _ hu) pp hp
          have hppu : pp ≠ url := fun he => hnv (he ▸ hv)
          refine ⟨List.mem_cons_of_mem _ hv, ?_⟩
          intro rp hrp
          rw [lookupMap_mapSet_ne _ _ _ hppu] at hrp
          exact hdep rp hrp
        · obtain ⟨l, _, he⟩ := List.mem_map.mp hu
          injection he with he1 he2
          injection he2 with he2 he3
          subst he1
          subst he2
          rw [← he3] at hp
          injection hp with hp
          subst hp
          refine ⟨List.mem_cons_self _ _, ?_⟩
          intro rp hrp
          rw [lookupMap_mapSet_self] at hrp
          injection hrp with hrp
          subst hrp
          rfl
      · intro r0 h0
        by_cases hsu : startUrl = url
        · subst hsu
          rw [lookupMap_mapSet_self] at h0
          injection h0 with h0
          subst h0
          obtain ⟨hq0, _⟩ := h5 hnv
          rw [hq] at hq0
          injection hq0 with he _
          injection he with _ he2
          injection he2 with he2 he3
          exact ⟨he2, he3⟩
        · rw [lookupMap_mapSet_ne _ _ _ hsu] at h0
          exact h6 r0 h0
    · rw [if_neg hql]
      refine ⟨Nat.succ_le_of_lt hb, ?_, ?_, ?_, fun hst => absurd hst hstart, h6⟩
      · intro k r hk
        obtain ⟨hu, hv, hdep, hmin, hpd⟩ := h2 k r hk
        exact ⟨hu, List.mem_cons_of_mem _ hv, hdep, hmin, hpd⟩
      · intro k r pp hk hpp
        obtain ⟨hv, hdep⟩ := h3 k r pp hk hpp
        exact ⟨List.mem_cons_of_mem _ hv, hdep⟩
      · intro u d p hu pp hp
        rcases List.mem_append.mp hu with hu | hu
        · obtain ⟨hv, hdep⟩ :=
            h4 u d p (by rw [hq]; exact List.mem_cons_of_mem _ hu) pp hp
          exact ⟨List.mem_cons_of_mem _ hv, hdep⟩
        · obtain ⟨l, _, he⟩ := List.mem_map.mp hu
          injection he with he1 he2
          injection he2 with he2 he3
          subst he1
          subst he2
          rw [← he3] at hp
          injection hp with hp
          subst hp
          refine ⟨List.mem_cons_self _ _, ?_⟩
          intro rp hrp
          obtain ⟨_, hv, _, _, _⟩ := h2 _ rp hrp
          exact absurd hv hnv

theorem inv_crawlLoop {world : String → Option FetchedPage} {opts : ScanOptions}
    {startUrl baseDomain : String} :
    ∀ (fuel : Nat) (s : CrawlState), Inv world opts startUrl s →
      Inv world opts startUrl (crawlLoop world opts baseDomain fuel s) := by
  intro fuel
  induction fuel with
  | zero => intro s h; simpa [crawlLoop] using h
  | succ n ih =>
    intro s h
    rcases hq : s.queue with _ | ⟨⟨url, depth, parent⟩, rest⟩
    · simpa [crawlLoop, hq] using h
    · by_cases hb : s.pagesScanned < opts.maxPages
      · by_cases hc : url ∈ s.visited ∨ opts.maxDepth < depth
        · have := ih _ (inv_skip h hq hc)
          simpa [crawlLoop, hq, hb, hc] using this
        · rw [not_or] at hc
          have := ih _ (inv_processEntry h hq hc.1 hc.2 hb baseDomain)
          have hc' : ¬ (url ∈ s.visited ∨ opts.maxDepth < depth) := by
            rw [not_or]
            exact hc
          simpa [crawlLoop, hq, hb, hc'] using this
      · simpa [crawlLoop, hq, hb] using h

theorem inv_init (world : String → Option FetchedPage) (opts : ScanOptions)
    (startUrl : String) : Inv world opts startUrl (initState startUrl) := by
  refine ⟨Nat.zero_le _, ?_, ?_, ?_, ?_, ?_⟩
  · intro k r hk
    simp [initState, lookupMap] at hk
  · intro k r pp hk _
    simp [initState, lookupMap] at hk
  · intro u d p hu pp hp
    simp [initState] at hu
    rw [hu.2.2] at hp
    simp at hp
  · intro _
    exact ⟨rfl, rfl⟩
  · intro r0 h0
    simp [initState, lookupMap] at h0

/-- The invariant holds at every point of every crawl run. -/
theorem inv_crawl {world : String → Option FetchedPage} {opts : ScanOptions}
    {inputUrl : String} {fuel : Nat} {st : CrawlState} {startUrl : String}
    (hn : normalizeUrl inputUrl = some startUrl)
    (hc : crawl world opts inputUrl fuel = Except.ok st) :
    Inv world opts startUrl st := by
  unfold crawl at hc
  rw [hn] at hc
  injection hc with hc
  rw [← hc]
  exact inv_crawlLoop fuel _ (inv_init world opts startUrl)

/-! ### Claim theorems -/

/-- C10: `calculateStatistics` is total on an empty pages map: all counters
and both guarded averages are 0 (the `|| 0` guard absorbs the `NaN` from
dividing by a zero page count). -/
theorem calculateStatistics_empty :
    calculateStatistics [] =
      { totalPages := 0, totalQA := 0, totalWords := 0, avgQualityScore := 0,
        faqPages := 0, docsPages := 0, avgWordsPerPage := 0 } := rfl

/-- Pulling an increment out of a conditional accumulator step. -/
theorem ite_add_shift (c : Prop) [Decidable c] (a k : Nat) :
    (if c then a + k else a) = a + (if c then k else 0) := by
  split_ifs <;> simp

/-- C4: the quality score is exactly the additive heuristic of the spec —
+20/+20/+10 for content length over 500/1500/3000, +15 for more than 3
headings, +10 for more than 2 h2s, +25 for any Q&A pair and +15 more for
more than 5, +20 for a valuable page type — clamped to at most 100 (and at
least 0, trivially, as a natural number). -/
theorem calculateQualityScore_spec :
    ∀ (content : PageContent) (headings : HeadingStructure)
      (qaItems : List (String × String)) (pageType : String),
      calculateQualityScore content headings qaItems pageType =
        min 100
          ((if 500 < content.text.length then 20 else 0) +
            (if 1500 < content.text.length then 20 else 0) +
            (if 3000 < content.text.length then 10 else 0) +
            (if 3 < headings.hierarchy.length then 15 else 0) +
            (if 2 < headings.h2 then 10 else 0) +
            (if 0 < qaItems.length then 25 else 0) +
            (if 5 < qaItems.length then 15 else 0) +
            (if pageType ∈ valuableTypes then 20 else 0)) ∧
      calculateQualityScore content headings qaItems pageType ≤ 100 := by
  intro content headings qaItems pageType
  constructor
  · simp only [calculateQualityScore, ite_add_shift, Nat.zero_add]
  · exact Nat.min_le_left 100 _

/-- C5: the budget invariants of the crawl: `pagesScanned` never exceeds
`maxPages` and no stored record has `depth > maxDepth`; moreover a frontier
entry skipped as already-visited or over-depth is dropped without touching
`pagesScanned` (it does not count against the budget). -/
theorem crawl_budget_respected :
    (∀ (world : String → Option FetchedPage) (opts : ScanOptions) (inputUrl : String)
      (fuel : Nat) (st : CrawlState), crawl world opts inputUrl fuel = Except.ok st →
      st.pagesScanned ≤ opts.maxPages ∧
        ∀ k r, lookupMap st.siteMap k = some r → r.depth ≤ opts.maxDepth) ∧
    (∀ (world : String → Option FetchedPage) (opts : ScanOptions) (baseDomain : String)
      (fuel : Nat) (s : CrawlState) (url : String) (depth : Nat) (parent : Option String)
      (rest : List (String × Nat × Option String)),
      s.queue = (url, depth, parent) :: rest → s.pagesScanned < opts.maxPages →
      (url ∈ s.visited ∨ opts.maxDepth < depth) →
      crawlLoop world opts baseDomain (fuel + 1) s =
        crawlLoop world opts baseDomain fuel { s with queue := rest }) := by
  constructor
  · intro world opts inputUrl fuel st hc
    rcases hn : normalizeUrl inputUrl with _ | startUrl
    · unfold crawl at hc
      rw [hn] at hc
      exact absurd hc (by simp)
    · have hInv := inv_crawl hn hc
      exact ⟨hInv.1, fun k r hk => (hInv.2.1 k r hk).2.2.1⟩
  · intro world opts baseDomain fuel s url depth parent rest hq hb hcond
    simp [crawlLoop, hq, hb, hcond]

/-- C5 witness: on the concrete example crawl, 3 of at most 5 pages were
scanned and the one stored record sits at depth 1 of at most 3. -/
theorem crawl_budget_respected_witness :
    exRun.pagesScanned ≤ exOpts.maxPages ∧
    ((lookupMap exRun.siteMap "https://site.com/kid").getD default).depth ≤
      exOpts.maxDepth := by
  have h := crawl_budget_respected.1 exWorld exOpts "https://site.com" 10 exRun rfl
  exact ⟨h.1, h.2 "https://site.com/kid"
    ((lookupMap exRun.siteMap "https://site.com/kid").getD default) rfl⟩

/-- C1: the quality filter is an inclusion filter: every record stored in
the pages map scores at least `options.minQualityScore`, and a fetched page
scoring below the threshold is marked visited and counted, but the pages
map is left unchanged (the page is never added). -/
theorem crawl_quality_filter :
    (∀ (world : String → Option FetchedPage) (opts : ScanOptions) (inputUrl : String)
      (fuel : Nat) (st : CrawlState), crawl world opts inputUrl fuel = Except.ok st →
      ∀ k r, lookupMap st.siteMap k = some r → opts.minQualityScore ≤ r.qualityScore) ∧
    (∀ (world : String → Option FetchedPage) (opts : ScanOptions) (baseDomain : String)
      (fuel : Nat) (s : CrawlState) (url : String) (depth : Nat) (parent : Option String)
      (rest : List (String × Nat × Option String)) (pd : FetchedPage),
      s.queue = (url, depth, parent) :: rest → s.pagesScanned < opts.maxPages →
      url ∉ s.visited → ¬ opts.maxDepth < depth → world url = some pd →
      pd.qualityScore < opts.minQualityScore →
      ∃ s', crawlLoop world opts baseDomain (fuel + 1) s =
          crawlLoop world opts baseDomain fuel s' ∧
        s'.siteMap = s.siteMap ∧ url ∈ s'.visited ∧
        s'.pagesScanned = s.pagesScanned + 1) := by
  constructor
  · intro world opts inputUrl fuel st hc k r hk
    rcases hn : normalizeUrl inputUrl with _ | startUrl
    · unfold crawl at hc
      rw [hn] at hc
      exact absurd hc (by simp)
    · exact ((inv_crawl hn hc).2.1 k r hk).2.2.2.1
  · intro world opts baseDomain fuel s url depth parent rest pd hq hb hnv hd hw hlow
    have hcond : ¬ (url ∈ s.visited ∨ opts.maxDepth < depth) := by
      rw [not_or]
      exact ⟨hnv, hd⟩
    refine ⟨processEntry world opts baseDomain s url depth parent rest, ?_, ?_, ?_, ?_⟩
    · simp [crawlLoop, hq, hb, hcond]
    · rw [processEntry_some _ _ _ _ _ _ hw, if_neg (Nat.not_le_of_lt hlow)]
    · rw [processEntry_some _ _ _ _ _ _ hw]
      exact List.mem_cons_self _ _
    · rw [processEntry_some _ _ _ _ _ _ hw]

/-- C1 witness: in the example crawl the stored record (the child page)
scores 80, at least the threshold 30; the start page (score 10) was visited
but not stored (see the C6 counterexample for that evaluation). -/
theorem crawl_quality_filter_witness :
    exOpts.minQualityScore ≤
      ((lookupMap exRun.siteMap "https://site.com/kid").getD default).qualityScore :=
  crawl_quality_filter.1 exWorld exOpts "https://site.com" 10 exRun rfl
    "https://site.com/kid"
    ((lookupMap exRun.siteMap "https://site.com/kid").getD default) rfl

/-- C9: an unparsable start URL fails the crawl with `Invalid URL provided`
for every fetch oracle (so before any page is fetched); a per-page fetch
failure is non-fatal: the loop continues on the remaining frontier with the
URL marked visited and counted, the politeness delay still performed, and
the pages map untouched — indeed no URL whose fetch fails ever has a
record (so it contributes nothing to statistics, which are computed from
the pages map alone). -/
theorem crawl_error_handling :
    (∀ (world : String → Option FetchedPage) (opts : ScanOptions) (inputUrl : String)
      (fuel : Nat), normalizeUrl inputUrl = none →
      crawl world opts inputUrl fuel = Except.error "Invalid URL provided") ∧
    (∀ (world : String → Option FetchedPage) (opts : ScanOptions) (baseDomain : String)
      (fuel : Nat) (s : CrawlState) (url : String) (depth : Nat) (parent : Option String)
      (rest : List (String × Nat × Option String)),
      s.queue = (url, depth, parent) :: rest → s.pagesScanned < opts.maxPages →
      url ∉ s.visited → ¬ opts.maxDepth < depth → world url = none →
      crawlLoop world opts baseDomain (fuel + 1) s =
        crawlLoop world opts baseDomain fuel
          { visited := url :: s.visited, queue := rest, siteMap := s.siteMap,
            pageRelationships := updateRel s.pageRelationships parent url,
            pagesScanned := s.pagesScanned + 1, fetchLog := s.fetchLog ++ [url],
            delayCount := s.delayCount + 1 }) ∧
    (∀ (world : String → Option FetchedPage) (opts : ScanOptions) (inputUrl : String)
      (fuel : Nat) (st : CrawlState) (k : String),
      crawl world opts inputUrl fuel = Except.ok st → world k = none →
      lookupMap st.siteMap k = none) := by
  refine ⟨?_, ?_, ?_⟩
  · intro world opts inputUrl fuel hn
    unfold crawl
    rw [hn]
  · intro world opts baseDomain fuel s url depth parent rest hq hb hnv hd hw
    have hcond : ¬ (url ∈ s.visited ∨ opts.maxDepth < depth) := by
      rw [not_or]
      exact ⟨hnv, hd⟩
    rw [show crawlLoop world opts baseDomain (fuel + 1) s =
        crawlLoop world opts baseDomain fuel
          (processEntry world opts baseDomain s url depth parent rest) from by
      simp [crawlLoop, hq, hb, hcond]]
    rw [processEntry_none _ _ _ _ _ _ hw]
  · intro world opts inputUrl fuel st k hc hw
    rcases hn : normalizeUrl inputUrl with _ | startUrl
    · unfold crawl at hc
      rw [hn] at hc
      exact absurd hc (by simp)
    · rcases hk : lookupMap st.siteMap k with _ | r
      · rfl
      · obtain ⟨pd, hpd, _⟩ := ((inv_crawl hn hc).2.1 k r hk).2.2.2.2
        rw [hw] at hpd
        exact absurd hpd (by simp)

/-- C9 witness: the crawl of an unparsable URL errors out for the example
oracle, and the example page whose fetch fails has no record. -/
theorem crawl_error_handling_witness :
    crawl exWorld exOpts "notaurl" 10 = Except.error "Invalid URL provided" ∧
    lookupMap exRun.siteMap "https://site.com/gone" = none := by
  constructor
  · exact crawl_error_handling.1 exWorld exOpts "notaurl" 10 (by decide)
  · exact crawl_error_handling.2.2 exWorld exOpts "https://site.com" 10 exRun
      "https://site.com/gone" rfl rfl

/-- C6 counterexample: in the example crawl the stored child record carries
`parent = some "https://site.com"`, yet `"https://site.com"` is not a key
of the pages map (the start page scored 10, below the threshold 30, so it
was visited but never stored) — refuting the claim that the parent URL of
every stored record is itself a key of the pages map. -/
theorem crawl_parent_key_counterexample :
    ((crawl exWorld exOpts "https://site.com" 10).toOption.bind
      (fun st => lookupMap st.siteMap "https://site.com/kid")).map
        (fun r => r.parent) = some (some "https://site.com") ∧
    ((crawl exWorld exOpts "https://site.com" 10).toOption.bind
      (fun st => lookupMap st.siteMap "https://site.com")) = none := by
  constructor
  · rfl
  · rfl

/-- C6 (amended): for every stored record with a non-`none` parent the
parent URL has been visited, and whenever the parent is itself a key of
the pages map the child's depth is the parent's depth plus one; the start
URL's record, when present, has depth 0 and no parent.  (The parent can be
missing from the map when its own quality score fell below the
threshold.) -/
theorem crawl_parent_depth :
    ∀ (world : String → Option FetchedPage) (opts : ScanOptions) (inputUrl : String)
      (fuel : Nat) (st : CrawlState) (startUrl : String),
      crawl world opts inputUrl fuel = Except.ok st →
      normalizeUrl inputUrl = some startUrl →
      (∀ k r pp, lookupMap st.siteMap k = some r → r.parent = some pp →
        pp ∈ st.visited ∧
          ∀ rp, lookupMap st.siteMap pp = some rp → r.depth = rp.depth + 1) ∧
      (∀ r0, lookupMap st.siteMap startUrl = some r0 →
        r0.depth = 0 ∧ r0.parent = none) := by
  intro world opts inputUrl fuel st startUrl hc hn
  have hInv := inv_crawl hn hc
  exact ⟨fun k r pp hk hpp => hInv.2.2.1 k r pp hk hpp, hInv.2.2.2.2.2⟩

/-- C6 witness: applied to the example crawl, where the child record's
parent (the start URL) is visited. -/
theorem crawl_parent_depth_witness : "https://site.com" ∈ exRun.visited := by
  have h := (crawl_parent_depth exWorld exOpts "https://site.com" 10 exRun
    "https://site.com" rfl rfl).1
  exact (h "https://site.com/kid"
    ((lookupMap exRun.siteMap "https://site.com/kid").getD default)
    "https://site.com" rfl rfl).1

/-- C7 counterexample: `normalizeUrl` is not idempotent on every valid URL:
a path ending in a double slash is stripped of only one slash per
application, so a second application changes the result again. -/
theorem normalizeUrl_idem_counterexample :
    normalizeUrl "https://example.com/a//" = some "https://example.com/a/" ∧
    normalizeUrl "https://example.com/a/" = some "https://example.com/a" ∧
    ("https://example.com/a/" : String) ≠ "https://example.com/a" := by
  refine ⟨by decide, by decide, by decide⟩

/-- C7 (amended): `normalizeUrl` is idempotent on every valid URL whose
normalized form does not end in `/` (equivalently, whose canonical
serialization does not end in a double slash): if `normalizeUrl u = some v`
and `v` does not end in `/`, then `normalizeUrl v = some v`. -/
theorem normalizeUrl_idem (u v : String) (h : normalizeUrl u = some v)
    (hv : v.data.getLast? ≠ some '/') : normalizeUrl v = some v := by
  unfold normalizeUrl at h ⊢
  cases hn : normChars u.data with
  | none =>
    rw [hn] at h
    exact absurd h (by simp)
  | some l =>
    rw [hn] at h
    simp only [Option.map_some', Option.some.injEq] at h
    subst h
    rw [normChars_idem hn hv]
    rfl

/-- C7 witness: a concrete idempotent normalization. -/
theorem normalizeUrl_idem_witness :
    normalizeUrl "https://example.com/page" = some "https://example.com/page" :=
  normalizeUrl_idem "https://example.com/page/" "https://example.com/page"
    (by decide) (by decide)

/-- C3 counterexample: the claimed tier order fails on the code in two
ways.  A page at `/help` whose title contains `faq` is classified `FAQ` by
`classifyPageType` (title keywords are consulted inside the first rule),
while the claimed order — URL tier first — yields `Support`.  A page whose
URL equals the start URL and whose `og:type` is `article` is classified
`Homepage` (the start-URL check precedes the `og:type` hint), while the
claimed order yields `Blog/Article`. -/
theorem classifyPageType_order_counterexample :
    classifyPageType "https://x.com" "https://x.com/help" "faq" "" none 0 = "FAQ" ∧
    classifyClaimOrder "https://x.com" "https://x.com/help" "faq" "" none 0 =
      "Support" ∧
    classifyPageType "https://x.com" "https://x.com" "" "" (some "article") 0 =
      "Homepage" ∧
    classifyClaimOrder "https://x.com" "https://x.com" "" "" (some "article") 0 =
      "Blog/Article" := by
  refine ⟨by decide, by decide, by decide, by decide⟩

/-- C3 (amended): `classifyPageType` applies its rules in a fixed
first-match order, namely the order of `classifyRules`: the combined
URL-or-title FAQ rule, then the thirteen further URL-keyword rules, then
the exact start-URL Homepage rule, then the three `og:type` rules, then
the body-text FAQ heuristic, then the default `Other`; so whenever rules
from two different tiers of this order match, the earlier one wins. -/
theorem classifyPageType_rule_order :
    ∀ (startUrl url title bodyText : String) (ogType : Option String)
      (faqSchemaCount : Nat),
      classifyPageType startUrl url title bodyText ogType faqSchemaCount =
        firstMatch (classifyRules startUrl (toLowerStr url) (toLowerStr title)
          (toLowerStr bodyText) ogType faqSchemaCount) := by
  intro startUrl url title bodyText ogType faqSchemaCount
  rfl

/-- C2: the skip-path divergence between the two `shouldCrawl` variants at
the input `https://example.com/administrator`.  The server variant
(`scanner.js`, naive `includes`) wrongly rejects it because `/admin` is a
substring; the browser variant (`app.js`, boundary matching, the behaviour
the spec asserts and the repository's fix report documents) accepts it.
Both accept `/lead-collection`. -/
theorem shouldCrawl_skip_substring_divergence :
    shouldCrawl exOpts [] "example.com" "https://example.com/administrator" = false ∧
    appShouldCrawl [] "example.com" "https://example.com/administrator" = true ∧
    shouldCrawl exOpts [] "example.com" "https://example.com/lead-collection" = true ∧
    appShouldCrawl [] "example.com" "https://example.com/lead-collection" = true := by
  refine ⟨by decide, by decide, by decide, by decide⟩

/-- C8: the `rag` and `vectordb` exports drop pages scoring below the fixed
cutoff 30 (a constant independent of the crawl-time option, which these
functions do not even receive): exporting is unchanged by pre-filtering to
pages with `qualityScore ≥ 30`, a below-cutoff page at the head of the
input contributes no document and no vector, and every exported document
carries a quality score of at least 30. -/
theorem export_quality_cutoff :
    (∀ (domain : String) (pages : List ExportPage),
      ragDocuments domain pages =
        ragDocuments domain (pages.filter (fun p => 30 ≤ p.qualityScore))) ∧
    (∀ pages : List ExportPage,
      vectorEntries pages =
        vectorEntries (pages.filter (fun p => 30 ≤ p.qualityScore))) ∧
    (∀ (domain : String) (p : ExportPage) (pages : List ExportPage),
      p.qualityScore < 30 →
      ragDocuments domain (p :: pages) = ragDocuments domain pages ∧
        vectorEntries (p :: pages) = vectorEntries pages) ∧
    (∀ (domain : String) (pages : List ExportPage) (d : RagDocument),
      d ∈ ragDocuments domain pages → 30 ≤ d.metaQualityScore) := by
  refine ⟨?_, ?_, ?_, ?_⟩
  · intro domain pages
    induction pages with
    | nil => rfl
    | cons p rest ih =>
      by_cases hp : p.qualityScore < 30
      · rw [show (p :: rest).filter (fun p => 30 ≤ p.qualityScore) =
            rest.filter (fun p => 30 ≤ p.qualityScore) from by
          simp [List.filter, Nat.not_le_of_lt hp]]
        simp [ragDocuments, hp, ih]
      · rw [show (p :: rest).filter (fun p => 30 ≤ p.qualityScore) =
            p :: rest.filter (fun p => 30 ≤ p.qualityScore) from by
          simp [List.filter, Nat.le_of_not_lt hp]]
        simp [ragDocuments, hp, ih]
  · intro pages
    induction pages with
    | nil => rfl
    | cons p rest ih =>
      by_cases hp : p.qualityScore < 30
      · rw [show (p :: rest).filter (fun p => 30 ≤ p.qualityScore) =
            rest.filter (fun p => 30 ≤ p.qualityScore) from by
          simp [List.filter, Nat.not_le_of_lt hp]]
        simp [vectorEntries, hp, ih]
      · rw [show (p :: rest).filter (fun p => 30 ≤ p.qualityScore) =
            p :: rest.filter (fun p => 30 ≤ p.qualityScore) from by
          simp [List.filter, Nat.le_of_not_lt hp]]
        simp [vectorEntries, hp, ih]
  · intro domain p pages hp
    exact ⟨by simp [ragDocuments, hp], by simp [vectorEntries, hp]⟩
  · intro domain pages d hd
    induction pages with
    | nil => simp [ragDocuments] at hd
    | cons p rest ih =>
      by_cases hp : p.qualityScore < 30
      · rw [show ragDocuments domain (p :: rest) = ragDocuments domain rest from by
          simp [ragDocuments, hp]] at hd
        exact ih hd
      · rw [show ragDocuments domain (p :: rest) =
            ragDocument domain p :: ragDocuments domain rest from by
          simp [ragDocuments, hp]] at hd
        rcases List.mem_cons.mp hd with rfl | hd
        · exact Nat.le_of_not_lt hp
        · exact ih hd

/-- C8 witness: a page scoring 10 contributes no document and no vector. -/
theorem export_quality_cutoff_witness :
    ragDocuments "site.com" [exLowPage] = [] ∧ vectorEntries [exLowPage] = [] := by
  have h := export_quality_cutoff.2.2.1 "site.com" exLowPage [] (by decide)
  exact ⟨h.1, h.2⟩

end WebsiteScanner
